import Mathlib

/-!
Verification of the data-augmentation pipeline configured by
`notebooks/computer_vision/raw/tut6.ipynb`.

The notebook itself holds only configuration: it builds a
`keras.Sequential` model `[RandomFlip('horizontal'), RandomContrast(0.5),
pretrained_base, Flatten, Dense(6, relu), Dense(1, sigmoid)]` with
`pretrained_base.trainable = False`, loads the train set with
`shuffle=True` and the validation set with `shuffle=False`
(`batch_size=64`, `image_size=[128,128]`), seeds numpy / TensorFlow / the
hash seed with 31415, and runs `model.fit` for 30 epochs with the
`binary_accuracy` metric.  The layer and driver semantics live in the
external framework, so they are modelled here from the specification; the
concrete parameters (flip mode, jitter bound 0.5, epochs 30, batch size
64, seed 31415, shuffle flags, trainable flags) are taken from the
notebook's source.
-/

/-- An image: a list of rows, each row a list of pixels, each pixel a
list of per-channel intensities.  Pixel values are rationals, standing
for the floating-point values the pipeline produces after
`convert_image_dtype` normalises images to `[0, 1]`. -/
abbrev Image := List (List (List ℚ))

/-- Modelled from the spec: the left-to-right mirror underlying
`RandomFlip('horizontal')` (the layer's code is in the external
framework).  Rows are kept, the pixels of each row are reversed. -/
def flipLR (img : Image) : Image :=
  img.map List.reverse

/-- All channel values of an image, flattened. -/
def pixelValues (img : Image) : List ℚ :=
  (img.map List.flatten).flatten

/-- The per-image mean intensity (0 for an empty image, since `ℚ`
division by zero yields 0). -/
def imageMean (img : Image) : ℚ :=
  (pixelValues img).sum / ((pixelValues img).length : ℚ)

/-- Clip a channel value to the valid pixel range `[0, 1]`. -/
def clipPixel (x : ℚ) : ℚ :=
  max 0 (min 1 x)

/-- Modelled from the spec: the deterministic core of
`RandomContrast` (the layer's code is in the external framework).  Each
channel value's deviation from the per-image mean is scaled by `factor`
and the result is clipped to the valid range. -/
def contrastAdjust (factor : ℚ) (img : Image) : Image :=
  img.map (fun row => row.map (fun px =>
    px.map (fun x => clipPixel (imageMean img + factor * (x - imageMean img)))))

/-- The contrast jitter bound passed to `RandomContrast` in the
notebook: `preprocessing.RandomContrast(0.5)`. -/
def contrastJitterBound : ℚ := 1/2

/-- Modelled from the spec: the contrast factor is drawn uniformly from
`[1 - bound, 1 + bound]`; `t ∈ [0, 1]` is the underlying uniform
draw. -/
def drawContrastFactor (t : ℚ) : ℚ :=
  (1 - contrastJitterBound) + t * (2 * contrastJitterBound)

/-- Modelled from the spec: the `RandomFlip('horizontal')` layer.  In
training mode it mirrors the image left-to-right when the random draw
`flipDraw` says so; in evaluation mode it is the identity. -/
def randomFlip (training flipDraw : Bool) (img : Image) : Image :=
  if training && flipDraw then flipLR img else img

/-- Modelled from the spec: the `RandomContrast(0.5)` layer.  In
training mode it applies the contrast adjustment with the drawn
`factor`; in evaluation mode it is the identity. -/
def randomContrast (training : Bool) (factor : ℚ) (img : Image) : Image :=
  if training then contrastAdjust factor img else img

/-- The augmentation stage of the notebook's model: `RandomFlip`
followed by `RandomContrast`, as in the `keras.Sequential` list. -/
def augmentationStage (training flipDraw : Bool) (factor : ℚ) (img : Image) : Image :=
  randomContrast training factor (randomFlip training flipDraw img)

/-- **C1.** In evaluation/inference mode (`training = false`), the
augmentation stage (`RandomFlip` followed by `RandomContrast`) is the
identity on every image, for every random draw. -/
theorem augmentation_identity_in_eval_mode
    (flipDraw : Bool) (factor : ℚ) (img : Image) :
    augmentationStage false flipDraw factor img = img := by
  simp [augmentationStage, randomContrast, randomFlip]

/-- **C5.** Applying the left-to-right flip twice (both training-mode
draws choosing to flip) returns the original image: the flip is an
involution. -/
theorem flip_involution (img : Image) :
    randomFlip true true (randomFlip true true img) = img := by
  simp [randomFlip, flipLR, List.map_map, Function.comp]

/-- The nested shape of an image: for every row, the list of channel
counts of its pixels.  Two images with the same shape have the same
height, the same width in every row, and the same channel count in
every pixel. -/
def imageShape (img : Image) : List (List ℕ) :=
  img.map (fun row => row.map List.length)

/-- Decidable check that every channel value of an image lies in the
valid pixel range `[0, 1]`. -/
def allInUnitRange (img : Image) : Bool :=
  img.all (fun row => row.all (fun px =>
    px.all (fun x => decide (0 ≤ x) && decide (x ≤ 1))))

theorem clipPixel_nonneg (x : ℚ) : 0 ≤ clipPixel x :=
  le_max_left 0 (min 1 x)

theorem clipPixel_le_one (x : ℚ) : clipPixel x ≤ 1 :=
  max_le (by norm_num) (min_le_left 1 x)

/-- **C2.** The contrast-adjust operation preserves the image's height,
width and channel count, and every output channel value lies in the
valid pixel range `[0, 1]` after clipping. -/
theorem contrast_preserves_shape_and_range (factor : ℚ) (img : Image) :
    imageShape (contrastAdjust factor img) = imageShape img ∧
    allInUnitRange (contrastAdjust factor img) = true := by
  constructor
  · simp [imageShape, contrastAdjust, List.map_map, Function.comp]
  · simp only [allInUnitRange, contrastAdjust, List.all_eq_true,
      Bool.and_eq_true, decide_eq_true_eq]
    intro a ha b hb c hc
    rcases List.mem_map.mp ha with ⟨row, _, rfl⟩
    rcases List.mem_map.mp hb with ⟨px, _, rfl⟩
    rcases List.mem_map.mp hc with ⟨x, _, rfl⟩
    exact ⟨clipPixel_nonneg _, clipPixel_le_one _⟩

/-- The channel value of `img` at row `i`, column `j`, channel `k`
(default 0 out of bounds). -/
def pixelAt (img : Image) (i j k : ℕ) : ℚ :=
  (((img.getD i []).getD j []).getD k 0)

theorem getD_map_of_lt {α β : Type} (f : α → β) (l : List α) (i : ℕ)
    (d : β) (d2 : α) (h : i < l.length) :
    (l.map f).getD i d = f (l.getD i d2) := by
  induction l generalizing i with
  | nil => simp at h
  | cons a t ih =>
    cases i with
    | zero => simp [List.getD]
    | succ n =>
      simp only [List.length_cons, Nat.succ_lt_succ_iff] at h
      simpa [List.getD] using ih n h

/-- **C3.** When the contrast factor is drawn from the bounded range
configured by `RandomContrast(0.5)` (uniform draw `t ∈ [0, 1]` mapped to
`[1 - 0.5, 1 + 0.5]`), the drawn factor lies within ±50% of 1, and
every in-bounds output channel value is the clipped scaled deviation of
the input value from the per-image mean. -/
theorem contrast_scaled_deviation (t : ℚ) (ht0 : 0 ≤ t) (ht1 : t ≤ 1)
    (img : Image) (i j k : ℕ)
    (hi : i < img.length)
    (hj : j < (img.getD i []).length)
    (hk : k < ((img.getD i []).getD j []).length) :
    (1 - contrastJitterBound ≤ drawContrastFactor t ∧
      drawContrastFactor t ≤ 1 + contrastJitterBound) ∧
    pixelAt (contrastAdjust (drawContrastFactor t) img) i j k =
      clipPixel (imageMean img +
        drawContrastFactor t * (pixelAt img i j k - imageMean img)) := by
  refine ⟨⟨?_, ?_⟩, ?_⟩
  · unfold drawContrastFactor contrastJitterBound
    nlinarith
  · unfold drawContrastFactor contrastJitterBound
    nlinarith
  · unfold pixelAt contrastAdjust
    rw [getD_map_of_lt _ _ _ _ [] hi, getD_map_of_lt _ _ _ _ [] hj,
      getD_map_of_lt _ _ _ _ 0 hk]

/-- Concrete instance of `contrast_scaled_deviation` at `t = 1/2` on a
one-pixel image. -/
theorem contrast_scaled_deviation_witness :
    pixelAt (contrastAdjust (drawContrastFactor (1/2)) [[[3/4]]]) 0 0 0 =
      clipPixel (imageMean [[[3/4]]] +
        drawContrastFactor (1/2) * (pixelAt [[[3/4]]] 0 0 0 - imageMean [[[3/4]]])) :=
  (contrast_scaled_deviation (1/2) (by norm_num) (by norm_num)
    [[[3/4]]] 0 0 0 (by decide) (by decide) (by decide)).2

/-- The two equally likely outcomes of the flip layer's per-image coin
(the spec's implicit flip probability 0.5). -/
def flipCoinSpace : List Bool := [false, true]

/-- The probability that the flip coin chooses to mirror: the fraction
of flipping outcomes in the coin space. -/
def flipProbability : ℚ :=
  ((flipCoinSpace.count true : ℚ)) / ((flipCoinSpace.length : ℚ))

/-- Modelled from the spec: in a training step the flip layer draws one
coin per image of the batch and applies `randomFlip` to each image with
its own draw. -/
def randomFlipBatch (training : Bool) (draws : List Bool) (imgs : List Image) :
    List Image :=
  List.zipWith (fun d img => randomFlip training d img) draws imgs

theorem getD_zipWith_of_lt {α β γ : Type} (f : α → β → γ)
    (l1 : List α) (l2 : List β) (i : ℕ) (d1 : α) (d2 : β) (d3 : γ)
    (h1 : i < l1.length) (h2 : i < l2.length) :
    (List.zipWith f l1 l2).getD i d3 = f (l1.getD i d1) (l2.getD i d2) := by
  induction l1 generalizing l2 i with
  | nil => simp at h1
  | cons a t ih =>
    cases l2 with
    | nil => simp at h2
    | cons b t2 =>
      cases i with
      | zero => simp [List.getD]
      | succ n =>
        simp only [List.length_cons, Nat.succ_lt_succ_iff] at h1 h2
        simpa [List.getD] using ih t2 n h1 h2

/-- **C4.** In training mode the flip layer treats each image of the
batch with its own independent draw — the `i`-th output is the `i`-th
input mirrored left-to-right when its own coin says flip and unchanged
otherwise — and the coin flips with probability `1/2`. -/
theorem flip_per_image_in_training (draws : List Bool) (imgs : List Image)
    (i : ℕ) (hd : i < draws.length) (hm : i < imgs.length) :
    (randomFlipBatch true draws imgs).getD i [] =
      (if draws.getD i false then flipLR (imgs.getD i []) else imgs.getD i []) ∧
    flipProbability = 1/2 := by
  constructor
  · unfold randomFlipBatch
    rw [getD_zipWith_of_lt _ _ _ _ false [] _ hd hm]
    unfold randomFlip
    cases h : draws.getD i false <;> simp [h]
  · rfl

/-- Concrete instance of `flip_per_image_in_training` on a two-image
batch whose first coin flips. -/
theorem flip_per_image_in_training_witness :
    (randomFlipBatch true [true, false] [[[[1, 2]]], [[[3, 4]]]]).getD 0 [] =
      (if ([true, false].getD 0 false) then flipLR ([[[[ (1:ℚ), 2]]], [[[3, 4]]]].getD 0 [])
        else ([[[[ (1:ℚ), 2]]], [[[3, 4]]]].getD 0 [])) ∧
    flipProbability = 1/2 :=
  flip_per_image_in_training [true, false] [[[[1, 2]]], [[[3, 4]]]] 0
    (by decide) (by decide)

/-- The stages of the notebook's `keras.Sequential` model. -/
inductive StageKind where
  | randFlip
  | randContrast
  | pretrainedBase
  | flattenLayer
  | denseRelu
  | denseSigmoid
deriving DecidableEq

/-- One layer of the model: its kind, its `trainable` flag and its
persistent parameters. -/
structure LayerState where
  kind : StageKind
  trainable : Bool
  params : List ℚ
deriving DecidableEq

/-- The notebook's model: the two preprocessing layers (no persistent
learned state), the pretrained base with `trainable = False` (set by
`pretrained_base.trainable = False`), and the trainable head
(`Flatten`, `Dense(6, relu)`, `Dense(1, sigmoid)`). -/
def augModel (base d1 d2 : List ℚ) : List LayerState :=
  [⟨.randFlip, true, []⟩,
   ⟨.randContrast, true, []⟩,
   ⟨.pretrainedBase, false, base⟩,
   ⟨.flattenLayer, true, []⟩,
   ⟨.denseRelu, true, d1⟩,
   ⟨.denseSigmoid, true, d2⟩]

/-- Modelled from the spec: one gradient-descent weight update — each
weight moves by its own gradient entry (a layer with no weights gets no
update). -/
def gradientUpdate (ps grads : List ℚ) : List ℚ :=
  List.zipWith (fun w g => w - g) ps grads

/-- Modelled from the spec: one training step of the external driver.
Gradients are applied only to layers whose `trainable` flag is set;
gradient flow to frozen layers is disabled, so they are returned
unchanged. -/
def trainStep (grads : StageKind → List ℚ) (m : List LayerState) :
    List LayerState :=
  m.map (fun l =>
    if l.trainable then ⟨l.kind, l.trainable, gradientUpdate l.params (grads l.kind)⟩
    else l)

/-- **C6.** A training step mutates only the head's dense layers: the
whole model after the step equals the original with only the two dense
parameter lists replaced, so the pretrained base's parameters are
untouched, and the preprocessing layers hold no persistent learned
state before or after. -/
theorem train_step_mutates_only_head (grads : StageKind → List ℚ)
    (base d1 d2 : List ℚ) :
    trainStep grads (augModel base d1 d2) =
      augModel base (gradientUpdate d1 (grads .denseRelu))
        (gradientUpdate d2 (grads .denseSigmoid)) ∧
    ((augModel base d1 d2).take 2).map (fun l => l.params) = [[], []] := by
  constructor
  · simp [trainStep, augModel, gradientUpdate]
  · rfl

/-- Modelled from the spec: `set_seed(31415)` seeds numpy, TensorFlow
and the Python hash seed with the same value. -/
structure SeedState where
  npSeed : ℕ
  tfSeed : ℕ
  hashSeed : ℕ
deriving DecidableEq

/-- The notebook's `set_seed`: all three seeds receive `seed`. -/
def setSeed (seed : ℕ) : SeedState :=
  ⟨seed, seed, seed⟩

/-- The notebook's default seed, `set_seed(seed=31415)`. -/
def defaultSeed : ℕ := 31415

/-- Modelled from the spec: a deterministic pseudo-random state
transition (a linear congruential step), standing for the framework's
seeded generator. -/
def prngNext (s : ℕ) : ℕ :=
  (s * 1103515245 + 12345) % 4294967296

/-- The flip coin derived from a generator state. -/
def flipDecision (s : ℕ) : Bool :=
  s % 2 == 1

/-- The contrast factor derived from a generator state: a uniform
position in the configured jitter range. -/
def contrastDecision (s : ℕ) : ℚ :=
  drawContrastFactor ((s % 1000 : ℕ) / 1000)

/-- Modelled from the spec: the sequence of per-step augmentation
decisions (flip coin, contrast factor) of a training pass, a pure
function of the generator's seeded initial state. -/
def augDecisionStream (s : ℕ) : ℕ → List (Bool × ℚ)
  | 0 => []
  | n + 1 => (flipDecision s, contrastDecision s) :: augDecisionStream (prngNext s) n

/-- **C7.** Two runs whose `set_seed` calls produce the same seed state
generate identical sequences of augmentation decisions: the decisions
are a deterministic function of the seed. -/
theorem augmentation_deterministic_under_seed (s1 s2 n : ℕ)
    (h : setSeed s1 = setSeed s2) :
    augDecisionStream (setSeed s1).tfSeed n =
      augDecisionStream (setSeed s2).tfSeed n := by
  rw [h]

/-- Concrete instance of `augmentation_deterministic_under_seed`: two
runs seeded with 31415 agree on their first three decisions. -/
theorem augmentation_deterministic_under_seed_witness :
    augDecisionStream (setSeed defaultSeed).tfSeed 3 =
      augDecisionStream (setSeed defaultSeed).tfSeed 3 :=
  augmentation_deterministic_under_seed defaultSeed defaultSeed 3 rfl

/-- The number of training passes configured by `model.fit(..., epochs=30)`. -/
def numEpochs : ℕ := 30

/-- The training history: one loss value and one accuracy value per
completed pass, as collected in `history.history` and turned into
`history_frame`. -/
structure TrainHistory where
  loss : List ℚ
  accuracy : List ℚ
deriving DecidableEq

/-- Appending one completed pass's (loss, accuracy) entry to the
history. -/
def recordEpoch (h : TrainHistory) (l a : ℚ) : TrainHistory :=
  ⟨h.loss ++ [l], h.accuracy ++ [a]⟩

/-- Modelled from the spec: the external training driver runs a fixed
number of passes; after each pass it appends that pass's metrics
(given by `metrics`, a function of the pass index) to the history.  No
early stopping: the recursion always runs to the requested count. -/
def runTraining (metrics : ℕ → ℚ × ℚ) : ℕ → TrainHistory
  | 0 => ⟨[], []⟩
  | n + 1 => recordEpoch (runTraining metrics n) (metrics n).1 (metrics n).2

/-- The history produced by the notebook's `model.fit` call: exactly
`numEpochs` passes. -/
def fitHistory (metrics : ℕ → ℚ × ℚ) : TrainHistory :=
  runTraining metrics numEpochs

theorem runTraining_lengths (metrics : ℕ → ℚ × ℚ) (n : ℕ) :
    (runTraining metrics n).loss.length = n ∧
    (runTraining metrics n).accuracy.length = n := by
  induction n with
  | zero => simp [runTraining]
  | succ k ih =>
    simp [runTraining, recordEpoch, ih.1, ih.2]

/-- **C8.** Training runs for exactly the fixed pass count (30) and
terminates; the history is append-only — each pass appends exactly one
(loss, accuracy) entry to the record of the previous passes — so after
training it holds exactly 30 entries for each tracked metric. -/
theorem training_fixed_passes_history (metrics : ℕ → ℚ × ℚ) :
    numEpochs = 30 ∧
    (fitHistory metrics).loss.length = numEpochs ∧
    (fitHistory metrics).accuracy.length = numEpochs ∧
    ∀ n, runTraining metrics (n + 1) =
      recordEpoch (runTraining metrics n) (metrics n).1 (metrics n).2 := by
  refine ⟨rfl, (runTraining_lengths metrics numEpochs).1,
    (runTraining_lengths metrics numEpochs).2, fun n => rfl⟩

/-- The batch size configured for both dataset loaders
(`batch_size=64`). -/
def configuredBatchSize : ℕ := 64

/-- The number of batches a dataset of `numImages` images yields at
batch size `bs`: every image appears in exactly one batch and a final
partial batch is kept (ceiling division). -/
def batchCount (numImages bs : ℕ) : ℕ :=
  (numImages + bs - 1) / bs

/-- The `binary_accuracy` thresholding: a predicted probability counts
as the positive class when it is at least 1/2. -/
def classifyPred (p : ℚ) : Bool :=
  decide ((1:ℚ)/2 ≤ p)

/-- The number of predictions that agree with their labels. -/
def correctCount (preds : List ℚ) (labels : List Bool) : ℕ :=
  (List.zipWith (fun p y => classifyPred p == y) preds labels).count true

/-- Modelled from the spec: the `binary_accuracy` metric — the fraction
of thresholded predictions matching the binary labels. -/
def binaryAccuracy (preds : List ℚ) (labels : List Bool) : ℚ :=
  (correctCount preds labels : ℚ) / (labels.length : ℚ)

/-- **C9.** With a training set of 64 images and the configured batch
size 64, each pass yields exactly one batch; and the reported binary
accuracy over a pass's predictions always lies in `[0, 1]`. -/
theorem one_batch_and_accuracy_in_unit_interval
    (preds : List ℚ) (labels : List Bool)
    (hlen : preds.length = labels.length) (hne : labels ≠ []) :
    batchCount 64 configuredBatchSize = 1 ∧
    0 ≤ binaryAccuracy preds labels ∧ binaryAccuracy preds labels ≤ 1 := by
  have hpos : (0:ℚ) < (labels.length : ℚ) := by
    have : 0 < labels.length := List.length_pos.mpr hne
    exact_mod_cast this
  refine ⟨rfl, ?_, ?_⟩
  · exact div_nonneg (by positivity) hpos.le
  · rw [binaryAccuracy, div_le_one hpos]
    have hcount : correctCount preds labels ≤ labels.length := by
      calc correctCount preds labels
          ≤ (List.zipWith (fun p y => classifyPred p == y) preds labels).length :=
            List.count_le_length _ _
        _ = min preds.length labels.length := List.length_zipWith _ _ _
        _ ≤ labels.length := min_le_right _ _
    exact_mod_cast hcount

/-- Concrete instance of `one_batch_and_accuracy_in_unit_interval` on a
two-image pass. -/
theorem one_batch_and_accuracy_witness :
    batchCount 64 configuredBatchSize = 1 ∧
    0 ≤ binaryAccuracy [9/10, 1/10] [true, true] ∧
    binaryAccuracy [9/10, 1/10] [true, true] ≤ 1 :=
  one_batch_and_accuracy_in_unit_interval [9/10, 1/10] [true, true]
    (by decide) (by decide)

/-- The loader configuration of `image_dataset_from_directory`, as far
as it matters for batch order: image size, batch size and the shuffle
flag. -/
structure LoaderConfig where
  imageSize : List ℕ
  batchSize : ℕ
  shuffle : Bool
deriving DecidableEq

/-- The training loader's configuration: `image_size=[128,128]`,
`batch_size=64`, `shuffle=True`. -/
def trainLoaderConfig : LoaderConfig :=
  ⟨[128, 128], 64, true⟩

/-- The validation loader's configuration: `image_size=[128,128]`,
`batch_size=64`, `shuffle=False`. -/
def validLoaderConfig : LoaderConfig :=
  ⟨[128, 128], 64, false⟩

/-- Modelled from the spec: the order in which a loader visits its
files.  With shuffling enabled the order comes from the random
reordering `shuffleFn`; with shuffling disabled the fixed file order is
used as is. -/
def loadOrder {α : Type} (cfg : LoaderConfig) (shuffleFn : List α → List α)
    (files : List α) : List α :=
  if cfg.shuffle then shuffleFn files else files

/-- The consecutive batches a loader forms from an ordered file list. -/
def toBatches {α : Type} (bs : ℕ) (l : List α) : List (List α) :=
  (List.range (batchCount l.length bs)).map (fun i => (l.drop (i * bs)).take bs)

/-- **C10.** The training loader shuffles and the validation loader
does not, so the validation visit order — and hence its batch
sequence — is the same for any two evaluations, whatever random
reorderings those evaluations would have used. -/
theorem validation_order_deterministic {α : Type}
    (files : List α) (f g : List α → List α) :
    trainLoaderConfig.shuffle = true ∧
    validLoaderConfig.shuffle = false ∧
    loadOrder validLoaderConfig f files = loadOrder validLoaderConfig g files ∧
    toBatches validLoaderConfig.batchSize (loadOrder validLoaderConfig f files) =
      toBatches validLoaderConfig.batchSize (loadOrder validLoaderConfig g files) := by
  refine ⟨rfl, rfl, ?_, ?_⟩ <;> simp [loadOrder, validLoaderConfig]
